import Mathlib

/-!
# EduEvo content-aggregation pipeline: a shallow embedding

This file embeds the aggregation slice of `src/app.py` in Lean 4:

* Python string primitives used by the code (`str.strip`, `str.lower`,
  `k in s`, slicing, `or` on strings) as executable functions over
  `List Char`;
* the topic normalizer `_normalize_topic_for_articles`;
* the three article source adapters `search_semantic_scholar`,
  `search_crossref`, `search_arxiv`.  Each adapter reads an external HTTP
  response; the response is passed in as a typed environment value shaped
  after the provider's schema (the fields the Python code reads), wrapped
  in `Option`: `none` stands for any exception the adapter's `try` block
  catches (network error, timeout, non-2xx status, JSON/XML parse failure,
  schema mismatch), which the Python code converts to `return []`;
* the aggregator `gather_article_sources` with its deduplicating merge
  loop and per-adapter sub-limits;
* the video resolver `search_youtube_links` with its tiers (official API,
  structured `ytInitialData` scrape, regex scrape), again over a typed
  environment: `none` components stand for the caught exceptions of the
  corresponding `try` blocks.  Mid-loop parse aborts of the structured
  tier (which keep the entries appended so far and fall through to the
  regex tier) are represented by an environment whose item list stops at
  the abort point.
-/

/-! ## Python string primitives -/

/-- Python whitespace for `str.strip()` (ASCII part; the inputs the claims
use contain only these). -/
def isPySpace (c : Char) : Bool :=
  c == ' ' || c == '\t' || c == '\n' || c == '\r' || c == '\x0b' || c == '\x0c'

/-- Drop leading whitespace. -/
def stripLeft (l : List Char) : List Char := l.dropWhile isPySpace

/-- Drop trailing whitespace. -/
def stripRight (l : List Char) : List Char := (l.reverse.dropWhile isPySpace).reverse

/-- Both ends, as Python `str.strip()`. -/
def stripChars (l : List Char) : List Char := stripRight (stripLeft l)

/-- Python `s.strip()`. -/
def pyStrip (s : String) : String := ⟨stripChars s.data⟩

/-- Python `str.lower()` on one character (ASCII; every keyword the code
compares against is ASCII). -/
def lowerChar (c : Char) : Char :=
  if 65 ≤ c.toNat ∧ c.toNat ≤ 90 then Char.ofNat (c.toNat + 32) else c

/-- Python `s.lower()`. -/
def pyLower (s : String) : String := ⟨s.data.map lowerChar⟩

/-- Contiguous-subsequence test on character lists, the semantics of
Python's `needle in hay` for strings. -/
def containsSeq (needle : List Char) : List Char → Bool
  | [] => needle.isPrefixOf []
  | c :: rest => needle.isPrefixOf (c :: rest) || containsSeq needle rest

/-- Python `needle in hay` for strings. -/
def strContains (hay needle : String) : Bool := containsSeq needle.data hay.data

/-- Python `s or d` for a string that may be `None`: `None` and `""` are
falsy. -/
def pyOrStr (o : Option String) (d : String) : String :=
  match o with
  | none => d
  | some s => if s = "" then d else s

/-- Python truthiness of a string-or-`None` value (`if x:`). -/
def pyTruthyStr (o : Option String) : Bool :=
  match o with
  | none => false
  | some s => !(s == "")

/-- Python `s[:n]`. -/
def pyTake (s : String) (n : Nat) : String := ⟨s.data.take n⟩

/-! ## Data model

`SearchResult` as the adapters build it (a Python dict with fixed keys).
`year` is whatever the adapter stored: an integer (Semantic Scholar,
Crossref) or a string (arXiv stores `published[:4]`), or absent. -/

structure Article where
  title : String
  authors : List String
  year : Option (Int ⊕ String)
  journal : String
  pdf : Option String
  url : Option String
  source : String
deriving DecidableEq

/-- The dedup key `gather_article_sources` computes:
`(item.get("title") or "").strip().lower()`. -/
def artKey (a : Article) : String := pyLower (pyStrip a.title)

/-! ## Semantic Scholar adapter (`search_semantic_scholar`) -/

structure SSAuthor where
  name : Option String
deriving DecidableEq

structure SSOpenAccessPdf where
  url : Option String
deriving DecidableEq

structure SSPaper where
  title : Option String
  authors : List SSAuthor
  year : Option Int
  venue : Option String
  openAccessPdf : Option SSOpenAccessPdf
  url : Option String
deriving DecidableEq

/-- The parsed JSON body's `"data"` list. -/
structure SSResponse where
  data : List SSPaper
deriving DecidableEq

def search_semantic_scholar (env : Option SSResponse) (topic : String) (limit : Nat) :
    List Article :=
  match env with
  | none => []
  | some resp =>
    resp.data.filterMap fun paper =>
      match paper.title with
      | none => none
      | some t =>
        if t = "" then none
        else
          some {
            title := t
            authors := paper.authors.filterMap fun a =>
              match a.name with
              | none => none
              | some nm => if nm = "" then none else some nm
            year := paper.year.map Sum.inl
            journal := pyOrStr paper.venue "Semantic Scholar"
            pdf := paper.openAccessPdf.bind SSOpenAccessPdf.url
            url := paper.url
            source := "Semantic Scholar" }

/-! ## Crossref adapter (`search_crossref`) -/

structure CRAuthor where
  given : Option String
  family : Option String
deriving DecidableEq

structure CRLink where
  contentType : Option String
  URL : Option String
deriving DecidableEq

structure CRItem where
  title : List String
  author : List CRAuthor
  link : List CRLink
  issued : List (List Int)
  containerTitle : List String
  URL : Option String
deriving DecidableEq

/-- The parsed JSON body's `"message"` object (its `"items"` list). -/
structure CRResponse where
  items : List CRItem
deriving DecidableEq

def search_crossref (env : Option CRResponse) (topic : String) (rows : Nat) :
    List Article :=
  match env with
  | none => []
  | some payload =>
    payload.items.filterMap fun item =>
      match item.title with
      | [] => none
      | t :: _ =>
        if t = "" then none
        else
          some {
            title := t
            authors :=
              (item.author.filterMap fun a =>
                let name :=
                  pyStrip (String.intercalate " "
                    (([a.given.getD "", a.family.getD ""]).filter fun p => p ≠ ""))
                if name = "" then none else some name).take 4
            year :=
              match item.issued with
              | [] => none
              | dp :: _ =>
                match dp with
                | [] => none
                | y :: _ => some (Sum.inl y)
            journal :=
              match item.containerTitle with
              | [] => "Crossref"
              | c :: _ => c
            pdf :=
              match item.link.find? (fun l =>
                  strContains (pyLower (l.contentType.getD "")) "pdf") with
              | none => some ""
              | some l => l.URL
            url := item.URL
            source := "Crossref" }

/-! ## arXiv adapter (`search_arxiv`) -/

structure AXLink where
  type : Option String
  href : Option String
deriving DecidableEq

structure AXEntry where
  title : Option String
  names : List String
  links : List AXLink
  published : Option String
  id : Option String
deriving DecidableEq

/-- The Atom feed's `<entry>` elements as the code reads them. -/
structure AXResponse where
  entries : List AXEntry
deriving DecidableEq

def search_arxiv (env : Option AXResponse) (topic : String) (max_results : Nat) :
    List Article :=
  match env with
  | none => []
  | some resp =>
    resp.entries.filterMap fun entry =>
      match entry.title.map pyStrip with
      | none => none
      | some t =>
        if t = "" then none
        else
          let pdfLink : Option String :=
            match entry.links.find? (fun l => l.type == some "application/pdf") with
            | none => some ""
            | some l => l.href
          let published := entry.published.getD ""
          some {
            title := t
            authors := (entry.names.map pyStrip).take 4
            year :=
              if published = "" then none else some (Sum.inr (pyTake published 4))
            journal := "arXiv"
            pdf := pdfLink
            url := some (entry.id.getD (pyOrStr pdfLink ""))
            source := "arXiv" }

/-! ## Topic normalizer (`_normalize_topic_for_articles`) -/

def lang_keywords : List String :=
  ["c++", "cpp", "c language", "c programming", "python", "java", "javascript",
   "typescript", "golang", "go language", "rust", "kotlin", "swift", "php",
   "ruby", "c#", ".net"]

def _normalize_topic_for_articles (topic : String) : String :=
  let t := pyStrip topic
  let low := pyLower t
  if low = "" then t
  else if lang_keywords.any (fun k => strContains low k) then
    if !(strContains low "programming") && !(strContains low "language") then
      t ++ " programming language"
    else t
  else t

/-! ## Aggregator (`gather_article_sources`) -/

/-- `max_results // 2 or 5`: the sub-limit passed to `search_semantic_scholar`. -/
def ssSublimit (n : Nat) : Nat := if n / 2 = 0 then 5 else n / 2

/-- `max_results // 2 or 5`: the sub-limit passed to `search_crossref`. -/
def crSublimit (n : Nat) : Nat := if n / 2 = 0 then 5 else n / 2

/-- `max(4, max_results // 3)`: the sub-limit passed to `search_arxiv`. -/
def axSublimit (n : Nat) : Nat := max 4 (n / 3)

/-- The inner loop of `gather_article_sources` over one source list: skip
empty titles, skip titles whose lower-cased stripped form was seen, append
otherwise, and break once the combined length has reached `max_results`
(the check runs only after an append). -/
def combineStep (n : Nat) : List Article → List String → List Article →
    List Article × List String
  | [], seen, acc => (acc, seen)
  | item :: rest, seen, acc =>
    let title := pyStrip item.title
    if title = "" then combineStep n rest seen acc
    else
      let key := pyLower title
      if key ∈ seen then combineStep n rest seen acc
      else
        let acc' := acc ++ [item]
        let seen' := key :: seen
        if n ≤ acc'.length then (acc', seen') else combineStep n rest seen' acc'

/-- The outer loop over the source lists: after each source, stop once the
combined length has reached `max_results`. -/
def combineSources (n : Nat) : List (List Article) → List String → List Article →
    List Article
  | [], _, acc => acc
  | src :: rest, seen, acc =>
    let p := combineStep n src seen acc
    if n ≤ p.1.length then p.1 else combineSources n rest p.2 p.1

def gather_article_sources (ssEnv : Option SSResponse) (crEnv : Option CRResponse)
    (axEnv : Option AXResponse) (topic : String) (max_results : Nat) :
    List Article × List Article :=
  let topic_for_apis := _normalize_topic_for_articles topic
  let source_lists :=
    [search_semantic_scholar ssEnv topic_for_apis (ssSublimit max_results),
     search_crossref crEnv topic_for_apis (crSublimit max_results),
     search_arxiv axEnv topic_for_apis (axSublimit max_results)]
  let combined := combineSources max_results source_lists [] []
  (combined, combined.filter fun a => pyTruthyStr a.pdf)

/-! ## Video resolver (`search_youtube_links`) -/

structure Video where
  title : Option String
  url : String
  channel : Option String
deriving DecidableEq

def watchUrl (vid : String) : String := "https://www.youtube.com/watch?v=" ++ vid

/-- Python `v["url"].split("v=")[-1]`, used to seed the regex tier's
`seen_ids`. -/
def splitVLast (s : String) : String := (s.splitOn "v=").getLastD s

/-- One item of the YouTube Data API response's `"items"` list, with the
fields the code reads. -/
structure ApiItem where
  videoId : Option String
  title : Option String
  channelTitle : Option String
deriving DecidableEq

/-- One `videoRenderer` of the scraped `ytInitialData` blob, with the title
and channel texts after the code's `.get(..., default)` chains. -/
structure Renderer where
  videoId : Option String
  title : String
  channel : String
deriving DecidableEq

/-- The scraped results page: the `ytInitialData` content items (`none` for
an item without a `videoRenderer`) and the raw-HTML regex matches. -/
structure ScrapeData where
  items : List (Option Renderer)
  regexIds : List String
deriving DecidableEq

/-- Environment of one `search_youtube_links` call: the module global
`YOUTUBE_API_KEY`, the API response (`none` = exception in the API tier's
`try`), and the scraped page (`none` = exception fetching the page). -/
structure YtEnv where
  apiKey : Option String
  apiItems : Option (List ApiItem)
  scrape : Option ScrapeData
deriving DecidableEq

/-- The structured-scrape loop: append a video for every `videoRenderer`
with a truthy `videoId` while `len(vids) < max_results`. -/
def scrapeStructured (n : Nat) : List (Option Renderer) → List Video → List Video
  | [], vids => vids
  | none :: rest, vids => scrapeStructured n rest vids
  | some v :: rest, vids =>
    if vids.length < n then
      match v.videoId with
      | none => scrapeStructured n rest vids
      | some vid =>
        if vid = "" then scrapeStructured n rest vids
        else scrapeStructured n rest (vids ++ [⟨some v.title, watchUrl vid, some v.channel⟩])
    else scrapeStructured n rest vids

/-- The regex fallback loop: skip ids already seen, append the rest with
the topic as title, and break once `len(vids) >= max_results` (checked
after an append). -/
def scrapeRegex (n : Nat) (topic : String) :
    List String → List String → List Video → List Video
  | [], _, vids => vids
  | m :: rest, seen, vids =>
    if m ∈ seen then scrapeRegex n topic rest seen vids
    else
      let vids' := vids ++ [⟨some topic, watchUrl m, some "YouTube"⟩]
      if n ≤ vids'.length then vids'
      else scrapeRegex n topic rest (m :: seen) vids'

/-- `search_youtube_links`.  `min_videos = 5` in the source only inflates
the API request's `maxResults` parameter (`min(max(max_results, min_videos), 50)`),
which shapes the response the environment already stands for; it is never
enforced on the returned list. -/
def search_youtube_links (env : YtEnv) (topic : String) (max_results : Nat) :
    List Video :=
  let apiVids : List Video :=
    match env.apiKey with
    | none => []
    | some key =>
      if key = "" then []
      else
        match env.apiItems with
        | none => []
        | some items =>
          (items.take max_results).filterMap fun it =>
            match it.videoId with
            | none => none
            | some vid =>
              if vid = "" then none
              else some ⟨it.title, watchUrl vid, it.channelTitle⟩
  if apiVids ≠ [] then apiVids.take max_results
  else
    match env.scrape with
    | none => List.take max_results []
    | some sd =>
      let vids1 := scrapeStructured max_results sd.items []
      let vids2 :=
        if vids1.length < max_results then
          scrapeRegex max_results topic sd.regexIds
            (vids1.map fun v => splitVLast v.url) vids1
        else vids1
      vids2.take max_results


/-! ## Lemmas about the Python string primitives -/

/-- The list has no leading Python whitespace. -/
def NoLeadSpace (l : List Char) : Prop :=
  ∀ c cs, l = c :: cs → isPySpace c = false

theorem stripLeft_noLead (l : List Char) : NoLeadSpace (stripLeft l) := by
  induction l with
  | nil => intro c cs h; simp [stripLeft] at h
  | cons a l ih =>
    intro c cs h
    cases ha : isPySpace a with
    | true =>
      rw [show stripLeft (a :: l) = stripLeft l by
        simp [stripLeft, List.dropWhile_cons, ha]] at h
      exact ih c cs h
    | false =>
      rw [show stripLeft (a :: l) = a :: l by
        simp [stripLeft, List.dropWhile_cons, ha]] at h
      cases h; exact ha

theorem dropWhile_eq_self_of_noLead (l : List Char) (h : NoLeadSpace l) :
    l.dropWhile isPySpace = l := by
  cases l with
  | nil => rfl
  | cons a l => simp [List.dropWhile_cons, h a l rfl]

theorem dropWhile_space_idem (l : List Char) :
    (l.dropWhile isPySpace).dropWhile isPySpace = l.dropWhile isPySpace :=
  dropWhile_eq_self_of_noLead _ (stripLeft_noLead l)

theorem dropWhile_space_pre (l : List Char) :
    ∃ pre, l = pre ++ l.dropWhile isPySpace := by
  induction l with
  | nil => exact ⟨[], rfl⟩
  | cons a l ih =>
    cases ha : isPySpace a with
    | true =>
      obtain ⟨pre, hp⟩ := ih
      exact ⟨a :: pre, by simp [List.dropWhile_cons, ha]; exact hp⟩
    | false => exact ⟨[], by simp [List.dropWhile_cons, ha]⟩

theorem stripRight_pre (l : List Char) : ∃ q, l = stripRight l ++ q := by
  obtain ⟨pre, hp⟩ := dropWhile_space_pre l.reverse
  refine ⟨pre.reverse, ?_⟩
  conv_lhs => rw [← List.reverse_reverse l, hp]
  simp [stripRight]

theorem stripRight_noLead (l : List Char) (h : NoLeadSpace l) :
    NoLeadSpace (stripRight l) := by
  intro c cs hc
  obtain ⟨q, hq⟩ := stripRight_pre l
  exact h c (cs ++ q) (by rw [hq, hc]; simp)

theorem stripChars_noLead (l : List Char) : NoLeadSpace (stripChars l) :=
  stripRight_noLead _ (stripLeft_noLead l)

theorem stripChars_idem (l : List Char) : stripChars (stripChars l) = stripChars l := by
  have h2 : stripLeft (stripChars l) = stripChars l :=
    dropWhile_eq_self_of_noLead _ (stripChars_noLead l)
  show stripRight (stripLeft (stripChars l)) = stripChars l
  rw [h2]
  show stripRight (stripRight (stripLeft l)) = stripRight (stripLeft l)
  unfold stripRight
  rw [List.reverse_reverse, dropWhile_space_idem]

theorem stripChars_append_eq (t sfx : List Char) (ht : NoLeadSpace t) (htne : t ≠ [])
    (hs : ∃ c z, sfx.reverse = c :: z ∧ isPySpace c = false) :
    stripChars (t ++ sfx) = t ++ sfx := by
  obtain ⟨c, z, hrev, hc⟩ := hs
  cases t with
  | nil => exact absurd rfl htne
  | cons a t0 =>
    have h1 : stripLeft ((a :: t0) ++ sfx) = (a :: t0) ++ sfx := by
      simp [stripLeft, List.dropWhile_cons, ht a t0 rfl]
    show stripRight (stripLeft ((a :: t0) ++ sfx)) = (a :: t0) ++ sfx
    rw [h1]
    unfold stripRight
    rw [List.reverse_append, hrev]
    show (List.dropWhile isPySpace (c :: (z ++ (a :: t0).reverse))).reverse = _
    rw [List.dropWhile_cons]
    simp only [hc, if_neg Bool.false_ne_true]
    rw [show (c :: (z ++ (a :: t0).reverse)) = ((c :: z) ++ (a :: t0).reverse) from rfl]
    rw [← hrev, ← List.reverse_append, List.reverse_reverse]

theorem strDataEq {s t : String} (h : s.data = t.data) : s = t := by
  cases s; cases t; exact congrArg String.mk h

theorem strAppend_data (s t : String) : (s ++ t).data = s.data ++ t.data := by
  cases s; cases t; rfl

theorem strEmpty_iff_data (s : String) : s = "" ↔ s.data = [] := by
  constructor
  · intro h; rw [h]
  · intro h; apply strDataEq; rw [h]

theorem pyStrip_idem (s : String) : pyStrip (pyStrip s) = pyStrip s := by
  apply strDataEq
  show stripChars (stripChars s.data) = stripChars s.data
  exact stripChars_idem s.data

theorem pyLower_append (s t : String) : pyLower (s ++ t) = pyLower s ++ pyLower t := by
  apply strDataEq
  show (s ++ t).data.map lowerChar = (pyLower s ++ pyLower t).data
  rw [strAppend_data, strAppend_data, List.map_append]; rfl

theorem pyLower_eq_empty_iff (s : String) : pyLower s = "" ↔ s = "" := by
  rw [strEmpty_iff_data, strEmpty_iff_data]
  show s.data.map lowerChar = [] ↔ s.data = []
  exact List.map_eq_nil_iff

theorem containsSeq_append_right (n h1 h2 : List Char) (h : containsSeq n h2 = true) :
    containsSeq n (h1 ++ h2) = true := by
  induction h1 with
  | nil => simpa using h
  | cons c h1 ih => simp [containsSeq, ih]

theorem strContains_append_right (a b n : String) (h : strContains b n = true) :
    strContains (a ++ b) n = true := by
  unfold strContains at *
  rw [strAppend_data]
  exact containsSeq_append_right _ _ _ h

/-! ## Branch lemmas for the topic normalizer -/

theorem norm_of_empty (s : String) (h : pyLower (pyStrip s) = "") :
    _normalize_topic_for_articles s = pyStrip s := by
  unfold _normalize_topic_for_articles
  rw [if_pos h]

theorem norm_of_append (s : String)
    (hne : ¬ pyLower (pyStrip s) = "")
    (hkw : lang_keywords.any (fun k => strContains (pyLower (pyStrip s)) k) = true)
    (hp : strContains (pyLower (pyStrip s)) "programming" = false)
    (hl : strContains (pyLower (pyStrip s)) "language" = false) :
    _normalize_topic_for_articles s = pyStrip s ++ " programming language" := by
  unfold _normalize_topic_for_articles
  rw [if_neg hne, if_pos hkw, if_pos (by rw [hp, hl]; rfl)]

theorem norm_of_nokw (s : String)
    (hkw : lang_keywords.any (fun k => strContains (pyLower (pyStrip s)) k) = false) :
    _normalize_topic_for_articles s = pyStrip s := by
  unfold _normalize_topic_for_articles
  by_cases he : pyLower (pyStrip s) = ""
  · rw [if_pos he]
  · rw [if_neg he, if_neg (by rw [hkw]; exact Bool.false_ne_true)]

theorem norm_of_proglang (s : String)
    (h : strContains (pyLower (pyStrip s)) "programming" = true ∨
         strContains (pyLower (pyStrip s)) "language" = true) :
    _normalize_topic_for_articles s = pyStrip s := by
  unfold _normalize_topic_for_articles
  by_cases he : pyLower (pyStrip s) = ""
  · rw [if_pos he]
  · rw [if_neg he]
    have hcond :
        (!(strContains (pyLower (pyStrip s)) "programming") &&
         !(strContains (pyLower (pyStrip s)) "language")) = false := by
      rcases h with h | h <;> rw [h] <;> simp
    by_cases hkw : lang_keywords.any (fun k => strContains (pyLower (pyStrip s)) k) = true
    · rw [if_pos hkw, if_neg (by rw [hcond]; exact Bool.false_ne_true)]
    · rw [if_neg hkw]

theorem pyStrip_append_prog (t : String) (hne : pyStrip t ≠ "") :
    pyStrip (pyStrip t ++ " programming language") = pyStrip t ++ " programming language" := by
  apply strDataEq
  show stripChars ((pyStrip t ++ " programming language").data) =
    (pyStrip t ++ " programming language").data
  rw [strAppend_data]
  apply stripChars_append_eq
  · show NoLeadSpace (stripChars t.data)
    exact stripChars_noLead t.data
  · intro h
    exact hne (strDataEq h)
  · exact ⟨'e', "gaugnal gnimmargorp ".data, by decide, by decide⟩

/-- C5: the topic normalizer is a pure function of the topic string: it
strips and lower-cases the topic; on an empty lowered form it returns the
stripped topic; if some keyword of the fixed language list occurs in the
lowered form and neither "programming" nor "language" occurs in it, it
returns the stripped topic with " programming language" appended; otherwise
it returns the stripped topic unchanged.  In particular "python" maps to
"python programming language", "python programming" is unchanged, and
whitespace-only input yields "". -/
theorem normalize_topic_contract :
    (∀ topic : String,
      (pyLower (pyStrip topic) = "" →
        _normalize_topic_for_articles topic = pyStrip topic) ∧
      ((∃ k ∈ lang_keywords, strContains (pyLower (pyStrip topic)) k = true) →
        strContains (pyLower (pyStrip topic)) "programming" = false →
        strContains (pyLower (pyStrip topic)) "language" = false →
        pyLower (pyStrip topic) ≠ "" →
        _normalize_topic_for_articles topic = pyStrip topic ++ " programming language") ∧
      ((∀ k ∈ lang_keywords, strContains (pyLower (pyStrip topic)) k = false) →
        _normalize_topic_for_articles topic = pyStrip topic) ∧
      ((strContains (pyLower (pyStrip topic)) "programming" = true ∨
        strContains (pyLower (pyStrip topic)) "language" = true) →
        _normalize_topic_for_articles topic = pyStrip topic)) ∧
    _normalize_topic_for_articles "python" = "python programming language" ∧
    _normalize_topic_for_articles "python programming" = "python programming" ∧
    _normalize_topic_for_articles "  " = "" := by
  refine ⟨fun topic => ⟨norm_of_empty topic, ?_, ?_, norm_of_proglang topic⟩,
    by decide, by decide, by decide⟩
  · intro hex hp hl hne
    apply norm_of_append topic hne ?_ hp hl
    rw [List.any_eq_true]
    obtain ⟨k, hk, hck⟩ := hex
    exact ⟨k, hk, hck⟩
  · intro hall
    apply norm_of_nokw
    rw [List.any_eq_false]
    intro k hk
    simp [hall k hk]

/-- Witness for C5 at the concrete input "python": the keyword branch fires
and appends " programming language". -/
theorem normalize_topic_contract_witness :
    _normalize_topic_for_articles "python" = pyStrip "python" ++ " programming language" :=
  (normalize_topic_contract.1 "python").2.1
    ⟨"python", by decide, by decide⟩ (by decide) (by decide) (by decide)

/-- C10: the topic normalizer is idempotent: a second application returns
its argument unchanged, because an appended " programming language" suffix
makes the lowered topic contain "programming", and a topic returned without
appending is already stripped. -/
theorem normalize_topic_idempotent (t : String) :
    _normalize_topic_for_articles (_normalize_topic_for_articles t) =
      _normalize_topic_for_articles t := by
  by_cases hlow : pyLower (pyStrip t) = ""
  · rw [norm_of_empty t hlow, (pyLower_eq_empty_iff _).mp hlow]
    decide
  · by_cases hp : strContains (pyLower (pyStrip t)) "programming" = true
    · rw [norm_of_proglang t (Or.inl hp)]
      exact (norm_of_proglang (pyStrip t)
        (by rw [pyStrip_idem]; exact Or.inl hp)).trans (pyStrip_idem t)
    · by_cases hl : strContains (pyLower (pyStrip t)) "language" = true
      · rw [norm_of_proglang t (Or.inr hl)]
        exact (norm_of_proglang (pyStrip t)
          (by rw [pyStrip_idem]; exact Or.inr hl)).trans (pyStrip_idem t)
      · by_cases hkw :
          lang_keywords.any (fun k => strContains (pyLower (pyStrip t)) k) = true
        · have hp' : strContains (pyLower (pyStrip t)) "programming" = false := by
            rw [← Bool.not_eq_true]; exact hp
          have hl' : strContains (pyLower (pyStrip t)) "language" = false := by
            rw [← Bool.not_eq_true]; exact hl
          rw [norm_of_append t hlow hkw hp' hl']
          have hne : pyStrip t ≠ "" := fun h =>
            hlow (by rw [h]; decide)
          have hstr := pyStrip_append_prog t hne
          have hprog :
              strContains (pyLower (pyStrip (pyStrip t ++ " programming language")))
                "programming" = true := by
            rw [hstr, pyLower_append]
            apply strContains_append_right
            decide
          rw [norm_of_proglang _ (Or.inl hprog), hstr]
        · have hkw' :
            lang_keywords.any (fun k => strContains (pyLower (pyStrip t)) k) = false := by
            rw [← Bool.not_eq_true]; exact hkw
          rw [norm_of_nokw t hkw']
          exact (norm_of_nokw (pyStrip t)
            (by rw [pyStrip_idem]; exact hkw')).trans (pyStrip_idem t)

/-! ## Lemmas about the aggregator's merge loop -/

theorem find?_append_of_some {α : Type} (p : α → Bool) (l1 l2 : List α) (a : α)
    (h : l1.find? p = some a) : (l1 ++ l2).find? p = some a := by
  induction l1 with
  | nil => simp [List.find?] at h
  | cons x l1 ih =>
    cases hx : p x with
    | true => simp_all [List.find?]
    | false => simp_all [List.find?]

theorem find?_append_of_none {α : Type} (p : α → Bool) (l1 l2 : List α)
    (h : l1.find? p = none) : (l1 ++ l2).find? p = l2.find? p := by
  induction l1 with
  | nil => simp
  | cons x l1 ih =>
    cases hx : p x with
    | true => simp_all [List.find?]
    | false => simp_all [List.find?]

theorem artKey_of_empty_strip (a : Article) (h : pyStrip a.title = "") :
    artKey a = "" := by
  unfold artKey
  rw [h]
  decide

theorem artKey_ne_empty (a : Article) (h : pyStrip a.title ≠ "") :
    artKey a ≠ "" := fun hc => h ((pyLower_eq_empty_iff _).mp hc)

/-- Invariant of the merge loop.  `P` is the prefix of the flattened input
the loop has visited, `seen` the recorded dedup keys, `acc` the combined
output so far. -/
def GatherInv (P : List Article) (seen : List String) (acc : List Article) : Prop :=
  (acc.map artKey).Nodup ∧
  (∀ a ∈ acc, pyStrip a.title ≠ "") ∧
  (∀ k, k ∈ seen ↔ k ∈ acc.map artKey) ∧
  (∀ a ∈ acc, a ∈ P ∧ P.find? (fun x => artKey x == artKey a) = some a) ∧
  (∀ x ∈ P, artKey x = "" ∨ artKey x ∈ seen)

theorem gatherInv_nil : GatherInv [] [] [] := by
  refine ⟨List.nodup_nil, ?_, ?_, ?_, ?_⟩ <;> simp

theorem gatherInv_skip (P : List Article) (seen : List String) (acc : List Article)
    (item : Article) (h : GatherInv P seen acc)
    (hkey : artKey item = "" ∨ artKey item ∈ seen) :
    GatherInv (P ++ [item]) seen acc := by
  obtain ⟨h1, h2, h3, h4, h5⟩ := h
  refine ⟨h1, h2, h3, ?_, ?_⟩
  · intro a ha
    obtain ⟨hmem, hfind⟩ := h4 a ha
    exact ⟨List.mem_append_left _ hmem, find?_append_of_some _ _ _ _ hfind⟩
  · intro x hx
    rcases List.mem_append.mp hx with hx | hx
    · exact h5 x hx
    · rw [List.mem_singleton.mp hx]
      exact hkey

theorem gatherInv_add (P : List Article) (seen : List String) (acc : List Article)
    (item : Article) (h : GatherInv P seen acc)
    (ht : pyStrip item.title ≠ "") (hk : artKey item ∉ seen) :
    GatherInv (P ++ [item]) (artKey item :: seen) (acc ++ [item]) := by
  obtain ⟨h1, h2, h3, h4, h5⟩ := h
  have hknew : artKey item ∉ acc.map artKey := fun hc => hk ((h3 _).mpr hc)
  have hfindP : P.find? (fun x => artKey x == artKey item) = none := by
    rw [List.find?_eq_none]
    intro x hx hbeq
    have hxk : artKey x = artKey item := eq_of_beq hbeq
    rcases h5 x hx with h' | h'
    · exact artKey_ne_empty item ht (hxk ▸ h')
    · exact hk (hxk ▸ h')
  refine ⟨?_, ?_, ?_, ?_, ?_⟩
  · rw [List.map_append]
    simp only [List.map_cons, List.map_nil]
    rw [List.nodup_append]
    exact ⟨h1, List.nodup_singleton _, by simpa using hknew⟩
  · intro a ha
    rcases List.mem_append.mp ha with ha | ha
    · exact h2 a ha
    · rw [List.mem_singleton.mp ha]; exact ht
  · intro k
    simp only [List.mem_cons, List.map_append, List.mem_append, List.map_cons,
      List.map_nil, List.mem_singleton]
    rw [h3 k]
    tauto
  · intro a ha
    rcases List.mem_append.mp ha with ha | ha
    · obtain ⟨hmem, hfind⟩ := h4 a ha
      exact ⟨List.mem_append_left _ hmem, find?_append_of_some _ _ _ _ hfind⟩
    · rw [List.mem_singleton.mp ha]
      refine ⟨List.mem_append_right _ (by simp), ?_⟩
      rw [find?_append_of_none _ _ _ hfindP]
      simp [List.find?]
  · intro x hx
    rcases List.mem_append.mp hx with hx | hx
    · rcases h5 x hx with h' | h'
      · exact Or.inl h'
      · exact Or.inr (List.mem_cons_of_mem _ h')
    · rw [List.mem_singleton.mp hx]
      exact Or.inr (List.mem_cons_self _ _)

theorem combineStep_inv (n : Nat) (src : List Article) :
    ∀ (seen : List String) (acc P : List Article), GatherInv P seen acc →
    ∃ consumed rest, src = consumed ++ rest ∧
      GatherInv (P ++ consumed) (combineStep n src seen acc).2
        (combineStep n src seen acc).1 ∧
      (rest = [] ∨ n ≤ (combineStep n src seen acc).1.length) := by
  induction src with
  | nil =>
    intro seen acc P h
    exact ⟨[], [], rfl, by simpa [combineStep] using h, Or.inl rfl⟩
  | cons item rest ih =>
    intro seen acc P h
    by_cases htitle : pyStrip item.title = ""
    · have hstep : combineStep n (item :: rest) seen acc = combineStep n rest seen acc := by
        simp [combineStep, htitle]
      obtain ⟨cs, rs, hsrc, hinv, hbr⟩ := ih seen acc (P ++ [item])
        (gatherInv_skip P seen acc item h (Or.inl (artKey_of_empty_strip item htitle)))
      refine ⟨item :: cs, rs, by rw [hsrc]; exact (List.cons_append item cs rs).symm, ?_, ?_⟩
      · rw [hstep, show P ++ item :: cs = (P ++ [item]) ++ cs by simp]
        exact hinv
      · rw [hstep]; exact hbr
    · by_cases hkey : pyLower (pyStrip item.title) ∈ seen
      · have hstep : combineStep n (item :: rest) seen acc = combineStep n rest seen acc := by
          simp [combineStep, htitle, hkey]
        obtain ⟨cs, rs, hsrc, hinv, hbr⟩ := ih seen acc (P ++ [item])
          (gatherInv_skip P seen acc item h (Or.inr hkey))
        refine ⟨item :: cs, rs, by rw [hsrc]; exact (List.cons_append item cs rs).symm, ?_, ?_⟩
        · rw [hstep, show P ++ item :: cs = (P ++ [item]) ++ cs by simp]
          exact hinv
        · rw [hstep]; exact hbr
      · have hinv' := gatherInv_add P seen acc item h htitle hkey
        by_cases hn : n ≤ acc.length + 1
        · have hstep : combineStep n (item :: rest) seen acc =
              (acc ++ [item], pyLower (pyStrip item.title) :: seen) := by
            simp [combineStep, htitle, hkey, hn]
          refine ⟨[item], rest, rfl, ?_, Or.inr ?_⟩
          · rw [hstep]; exact hinv'
          · rw [hstep]; simpa using hn
        · have hstep : combineStep n (item :: rest) seen acc =
              combineStep n rest (pyLower (pyStrip item.title) :: seen) (acc ++ [item]) := by
            simp [combineStep, htitle, hkey, hn]
          obtain ⟨cs, rs, hsrc, hinv2, hbr⟩ :=
            ih (pyLower (pyStrip item.title) :: seen) (acc ++ [item]) (P ++ [item]) hinv'
          refine ⟨item :: cs, rs, by rw [hsrc]; exact (List.cons_append item cs rs).symm, ?_, ?_⟩
          · rw [hstep, show P ++ item :: cs = (P ++ [item]) ++ cs by simp]
            exact hinv2
          · rw [hstep]; exact hbr

theorem combineSources_inv (n : Nat) (srcs : List (List Article)) :
    ∀ (seen : List String) (acc P : List Article), GatherInv P seen acc →
    ∃ consumed rest, srcs.flatten = consumed ++ rest ∧
      ∃ seen', GatherInv (P ++ consumed) seen' (combineSources n srcs seen acc) := by
  induction srcs with
  | nil =>
    intro seen acc P h
    exact ⟨[], [], by simp, seen, by simpa [combineSources] using h⟩
  | cons src rest ih =>
    intro seen acc P h
    obtain ⟨cs, rs, hsrc, hinv, hbr⟩ := combineStep_inv n src seen acc P h
    by_cases hn : n ≤ (combineStep n src seen acc).1.length
    · refine ⟨cs, rs ++ rest.flatten, ?_, (combineStep n src seen acc).2, ?_⟩
      · rw [List.flatten_cons, hsrc, List.append_assoc]
      · rw [show combineSources n (src :: rest) seen acc =
            (combineStep n src seen acc).1 by simp [combineSources, hn]]
        exact hinv
    · have hrs : rs = [] := by
        rcases hbr with h' | h'
        · exact h'
        · exact absurd h' hn
      obtain ⟨cs2, rs2, hjoin2, seen', hinv2⟩ :=
        ih (combineStep n src seen acc).2 (combineStep n src seen acc).1 (P ++ cs) hinv
      refine ⟨cs ++ cs2, rs2, ?_, seen', ?_⟩
      · rw [List.flatten_cons, hsrc, hrs, List.append_nil, hjoin2, List.append_assoc]
      · rw [show combineSources n (src :: rest) seen acc =
            combineSources n rest (combineStep n src seen acc).2
              (combineStep n src seen acc).1 by simp [combineSources, hn]]
        rw [← List.append_assoc]
        exact hinv2

theorem combineStep_length (n : Nat) (src : List Article) :
    ∀ (seen : List String) (acc : List Article), acc.length < n →
    (combineStep n src seen acc).1.length ≤ n := by
  induction src with
  | nil => intro seen acc h; simpa [combineStep] using Nat.le_of_lt h
  | cons item rest ih =>
    intro seen acc h
    by_cases htitle : pyStrip item.title = ""
    · rw [show combineStep n (item :: rest) seen acc = combineStep n rest seen acc by
        simp [combineStep, htitle]]
      exact ih seen acc h
    · by_cases hkey : pyLower (pyStrip item.title) ∈ seen
      · rw [show combineStep n (item :: rest) seen acc = combineStep n rest seen acc by
          simp [combineStep, htitle, hkey]]
        exact ih seen acc h
      · by_cases hn : n ≤ acc.length + 1
        · rw [show combineStep n (item :: rest) seen acc =
              (acc ++ [item], pyLower (pyStrip item.title) :: seen) by
            simp [combineStep, htitle, hkey, hn]]
          simpa using h
        · rw [show combineStep n (item :: rest) seen acc =
              combineStep n rest (pyLower (pyStrip item.title) :: seen) (acc ++ [item]) by
            simp [combineStep, htitle, hkey, hn]]
          exact ih _ _ (by simpa using Nat.lt_of_not_le hn)

theorem combineSources_length (n : Nat) (srcs : List (List Article)) :
    ∀ (seen : List String) (acc : List Article), acc.length < n →
    (combineSources n srcs seen acc).length ≤ n := by
  induction srcs with
  | nil => intro seen acc h; simpa [combineSources] using Nat.le_of_lt h
  | cons src rest ih =>
    intro seen acc h
    have hlen := combineStep_length n src seen acc h
    by_cases hn : n ≤ (combineStep n src seen acc).1.length
    · rw [show combineSources n (src :: rest) seen acc =
          (combineStep n src seen acc).1 by simp [combineSources, hn]]
      exact hlen
    · rw [show combineSources n (src :: rest) seen acc =
          combineSources n rest (combineStep n src seen acc).2
            (combineStep n src seen acc).1 by simp [combineSources, hn]]
      exact ih _ _ (Nat.lt_of_not_le hn)

/-- gather's combined list, written out (definitional). -/
theorem gather_fst_eq (ssEnv : Option SSResponse) (crEnv : Option CRResponse)
    (axEnv : Option AXResponse) (topic : String) (n : Nat) :
    (gather_article_sources ssEnv crEnv axEnv topic n).1 =
      combineSources n
        [search_semantic_scholar ssEnv (_normalize_topic_for_articles topic) (ssSublimit n),
         search_crossref crEnv (_normalize_topic_for_articles topic) (crSublimit n),
         search_arxiv axEnv (_normalize_topic_for_articles topic) (axSublimit n)]
        [] [] := rfl

/-- gather's pdf list is the filter of the combined list (definitional). -/
theorem gather_snd_eq (ssEnv : Option SSResponse) (crEnv : Option CRResponse)
    (axEnv : Option AXResponse) (topic : String) (n : Nat) :
    (gather_article_sources ssEnv crEnv axEnv topic n).2 =
      (gather_article_sources ssEnv crEnv axEnv topic n).1.filter
        (fun a => pyTruthyStr a.pdf) := rfl

/-- Every entry of the merged list has a non-whitespace title (helper shared
by several claims). -/
theorem combineSources_titles (n : Nat) (sources : List (List Article)) :
    ∀ a ∈ combineSources n sources [] [], pyStrip a.title ≠ "" := by
  obtain ⟨cs, rs, hflat, seen', hinv⟩ :=
    combineSources_inv n sources [] [] [] gatherInv_nil
  exact hinv.2.1

/-! ## Concrete articles for the scenario and edge-case claims -/

def introA : Article :=
  { title := "Intro to X", authors := [], year := none, journal := "",
    pdf := none, url := none, source := "A" }

def introB : Article :=
  { title := "intro to x", authors := [], year := none, journal := "",
    pdf := some "http://example.org/x.pdf", url := none, source := "B" }

def articleB : Article :=
  { title := "Machine Learning", authors := [], year := none, journal := "",
    pdf := none, url := none, source := "B" }

/-- C2: for every environment, topic and positive `max_results`, the merged
articles list has at most `max_results` entries, the pdfs list has at most
`max_results` entries, and the pdfs list is exactly the order-preserving
subsequence of the articles list whose `pdf` field is truthy (non-`None`,
non-empty), so each of its entries is an entry of the articles list. -/
theorem gather_cap_and_pdf_subset (ssEnv : Option SSResponse)
    (crEnv : Option CRResponse) (axEnv : Option AXResponse) (topic : String)
    (N : Nat) (hN : 1 ≤ N) :
    (gather_article_sources ssEnv crEnv axEnv topic N).1.length ≤ N ∧
    (gather_article_sources ssEnv crEnv axEnv topic N).2.length ≤ N ∧
    (gather_article_sources ssEnv crEnv axEnv topic N).2 =
      (gather_article_sources ssEnv crEnv axEnv topic N).1.filter
        (fun a => pyTruthyStr a.pdf) ∧
    (gather_article_sources ssEnv crEnv axEnv topic N).2.Sublist
      (gather_article_sources ssEnv crEnv axEnv topic N).1 ∧
    ∀ p ∈ (gather_article_sources ssEnv crEnv axEnv topic N).2,
      p ∈ (gather_article_sources ssEnv crEnv axEnv topic N).1 := by
  have hcap : (gather_article_sources ssEnv crEnv axEnv topic N).1.length ≤ N := by
    rw [gather_fst_eq]
    exact combineSources_length N _ [] [] hN
  have hsub : (gather_article_sources ssEnv crEnv axEnv topic N).2.Sublist
      (gather_article_sources ssEnv crEnv axEnv topic N).1 := by
    rw [gather_snd_eq]
    exact List.filter_sublist _
  refine ⟨hcap, ?_, gather_snd_eq _ _ _ _ _, hsub, fun p hp => hsub.subset hp⟩
  exact le_trans hsub.length_le hcap

/-- Witness for C2 at a concrete input. -/
theorem gather_cap_and_pdf_subset_witness :
    (gather_article_sources none none none "x" 1).1.length ≤ 1 :=
  (gather_cap_and_pdf_subset none none none "x" 1 (by decide)).1

/-- C3: deduplication is first-wins with no cross-source merging: the merged
list's dedup keys are pairwise distinct, every merged entry is (verbatim)
an entry of the concatenated adapter outputs and is the first entry of that
concatenation bearing its key; and in the concrete scenario where adapter A
returns {title "Intro to X", pdf None} and adapter B returns
{title "intro to x", pdf set}, the merged list is exactly the A entry and
the derived pdfs list is empty. -/
theorem gather_dedup_first_wins (s1 s2 s3 : List Article) (n : Nat) :
    ((combineSources n [s1, s2, s3] [] []).map artKey).Nodup ∧
    (∀ a ∈ combineSources n [s1, s2, s3] [] [],
      a ∈ s1 ++ s2 ++ s3 ∧
      (s1 ++ s2 ++ s3).find? (fun x => artKey x == artKey a) = some a) ∧
    combineSources 20 [[introA], [introB], []] [] [] = [introA] ∧
    (combineSources 20 [[introA], [introB], []] [] []).filter
      (fun a => pyTruthyStr a.pdf) = [] := by
  obtain ⟨cs, rs, hflat, seen', hinv⟩ :=
    combineSources_inv n [s1, s2, s3] [] [] [] gatherInv_nil
  rw [List.nil_append] at hinv
  have hall : s1 ++ s2 ++ s3 = cs ++ rs := by
    rw [List.append_assoc]
    simpa using hflat
  obtain ⟨h1, h2, h3, h4, h5⟩ := hinv
  refine ⟨h1, ?_, by decide, by decide⟩
  intro a ha
  obtain ⟨hmem, hfind⟩ := h4 a ha
  rw [hall]
  exact ⟨List.mem_append_left _ hmem, find?_append_of_some _ _ _ _ hfind⟩

/-- Witness for C3: the surviving entry of the scenario is the first entry
of the concatenation with its key. -/
theorem gather_dedup_first_wins_witness :
    introA ∈ [introA] ++ [introB] ++ [] ∧
    ([introA] ++ [introB] ++ []).find? (fun x => artKey x == artKey introA) =
      some introA :=
  (gather_dedup_first_wins [introA] [introB] [] 20).2.1 introA (by decide)

/-- C7: no entry with an empty (or whitespace-only) title appears in the
merged articles list, whatever the adapter outputs are and whatever
`gather_article_sources` is called with. -/
theorem gather_no_empty_titles (sources : List (List Article)) (n : Nat)
    (ssEnv : Option SSResponse) (crEnv : Option CRResponse)
    (axEnv : Option AXResponse) (topic : String) :
    (∀ a ∈ combineSources n sources [] [], pyStrip a.title ≠ "") ∧
    (∀ a ∈ (gather_article_sources ssEnv crEnv axEnv topic n).1,
      pyStrip a.title ≠ "") := by
  refine ⟨combineSources_titles n sources, ?_⟩
  intro a ha
  rw [gather_fst_eq] at ha
  exact combineSources_titles n _ a ha

/-- Witness for C7 at a concrete input. -/
theorem gather_no_empty_titles_witness : pyStrip introA.title ≠ "" :=
  (gather_no_empty_titles [[introA]] 5 none none none "x").1 introA (by decide)

/-- The outer loop at `max_results = 0` stops right after the first source:
`0 ≤ len` always holds. -/
theorem combineSources_zero_cons (src : List Article) (rest : List (List Article))
    (seen : List String) (acc : List Article) :
    combineSources 0 (src :: rest) seen acc = (combineStep 0 src seen acc).1 := by
  simp [combineSources, Nat.zero_le]

/-- At `max_results = 0` the inner loop appends at most the first
usable entry of the source. -/
theorem combineStep_zero (s : List Article) :
    ((combineStep 0 s [] []).1 = [] ∧ ∀ a ∈ s, pyStrip a.title = "") ∨
    (∃ a ∈ s, (combineStep 0 s [] []).1 = [a] ∧ pyStrip a.title ≠ "") := by
  induction s with
  | nil => exact Or.inl ⟨rfl, by simp⟩
  | cons item rest ih =>
    by_cases ht : pyStrip item.title = ""
    · have hstep : combineStep 0 (item :: rest) [] [] = combineStep 0 rest [] [] := by
        simp [combineStep, ht]
      rcases ih with ⟨he, hall⟩ | ⟨a, ha, he, hne⟩
      · refine Or.inl ⟨by rw [hstep]; exact he, ?_⟩
        intro a ha
        rcases List.mem_cons.mp ha with rfl | ha
        · exact ht
        · exact hall a ha
      · exact Or.inr ⟨a, List.mem_cons_of_mem _ ha, by rw [hstep]; exact he, hne⟩
    · refine Or.inr ⟨item, List.mem_cons_self _ _, ?_, ht⟩
      rw [show combineStep 0 (item :: rest) [] [] =
        ([item], [pyLower (pyStrip item.title)]) by simp [combineStep, ht]]

/-- C9 (amended): with `max_results = 0` the adapters are still queried with
sub-limits 5, 5 and 4; because the cap is checked only after an append, the
merged list can reach length 1 — exceeding the requested cap of 0 — and it
does so exactly when the first adapter's output contains an entry with a
non-empty stripped title (the outer break stops all later adapters when the
first one contributes nothing). -/
theorem gather_zero_cap_edge (s1 s2 s3 : List Article) :
    ssSublimit 0 = 5 ∧ crSublimit 0 = 5 ∧ axSublimit 0 = 4 ∧
    (combineSources 0 [s1, s2, s3] [] []).length ≤ 1 ∧
    ((combineSources 0 [s1, s2, s3] [] []).length = 1 ↔
      ∃ a ∈ s1, pyStrip a.title ≠ "") := by
  have hz := combineSources_zero_cons s1 [s2, s3] [] []
  refine ⟨by decide, by decide, by decide, ?_, ?_⟩
  · rcases combineStep_zero s1 with ⟨he, _⟩ | ⟨a, _, he, _⟩ <;>
      rw [hz, he] <;> simp
  · rcases combineStep_zero s1 with ⟨he, hall⟩ | ⟨a, ha, he, hne⟩
    · rw [hz, he]
      simp only [List.length_nil]
      constructor
      · intro h01; exact absurd h01 (by decide)
      · rintro ⟨a, ha, hne⟩; exact absurd (hall a ha) hne
    · rw [hz, he]
      constructor
      · intro _
        exact ⟨a, ha, hne⟩
      · intro _
        simp

/-- Counterexample for C9 as stated: the second adapter returns an entry
with a non-empty title, yet the merged list at `max_results = 0` is empty,
because the outer break fires right after the (empty) first adapter. -/
theorem gather_zero_cap_counterexample :
    (∃ a ∈ ([] : List Article) ++ [articleB] ++ [], pyStrip a.title ≠ "") ∧
    combineSources 0 [[], [articleB], []] [] [] = [] := by
  exact ⟨⟨articleB, by decide, by decide⟩, rfl⟩

/-- Witness for C9 (amended), reaching length 1 through the first adapter. -/
theorem gather_zero_cap_edge_witness :
    (combineSources 0 [[articleB], [], []] [] []).length = 1 :=
  (gather_zero_cap_edge [articleB] [] []).2.2.2.2.mpr ⟨articleB, by decide, by decide⟩

/-- C4: each adapter converts any caught failure (network, timeout, HTTP
status, schema mismatch, parse error — the environment's `none`) into the
empty list, and when all three fail `gather_article_sources` returns
`([], [])`.  (The adapters are total Lean functions: no exception escapes.) -/
theorem adapters_fail_empty (topic : String) (l1 l2 l3 n : Nat) :
    search_semantic_scholar none topic l1 = [] ∧
    search_crossref none topic l2 = [] ∧
    search_arxiv none topic l3 = [] ∧
    gather_article_sources none none none topic n = ([], []) := by
  refine ⟨rfl, rfl, rfl, ?_⟩
  have h : combineSources n [[], [], []] [] [] = ([] : List Article) := by
    cases n with
    | zero => rfl
    | succ m => rfl
  show (combineSources n [[], [], []] [] [],
    (combineSources n [[], [], []] [] []).filter fun a => pyTruthyStr a.pdf) = ([], [])
  rw [h]
  rfl

/-! ## Record shape of the adapters -/

theorem ss_shape (env : Option SSResponse) (topic : String) (limit : Nat) :
    ∀ r ∈ search_semantic_scholar env topic limit,
      r.title ≠ "" ∧ ∀ y, r.year = some y → ∃ k : Int, y = Sum.inl k := by
  intro r hr
  match env with
  | none => simp [search_semantic_scholar] at hr
  | some resp =>
    simp only [search_semantic_scholar] at hr
    obtain ⟨paper, hp, hf⟩ := List.mem_filterMap.mp hr
    split at hf
    · exact absurd hf (by simp)
    · rename_i t htl
      split at hf
      · exact absurd hf (by simp)
      · rename_i h0
        have hr2 := Option.some.inj hf
        subst hr2
        refine ⟨h0, ?_⟩
        intro y hy
        have hy' : Option.map Sum.inl paper.year = some y := hy
        cases hk : paper.year with
        | none => rw [hk] at hy'; exact absurd hy' (by simp)
        | some k => rw [hk] at hy'; exact ⟨k, (Option.some.inj hy').symm⟩

theorem cr_shape (env : Option CRResponse) (topic : String) (rows : Nat) :
    ∀ r ∈ search_crossref env topic rows,
      r.title ≠ "" ∧ r.authors.length ≤ 4 ∧
        ∀ y, r.year = some y → ∃ k : Int, y = Sum.inl k := by
  intro r hr
  match env with
  | none => simp [search_crossref] at hr
  | some payload =>
    simp only [search_crossref] at hr
    obtain ⟨item, hp, hf⟩ := List.mem_filterMap.mp hr
    split at hf
    · exact absurd hf (by simp)
    · rename_i t ts htl
      split at hf
      · exact absurd hf (by simp)
      · rename_i h0
        have hr2 := Option.some.inj hf
        subst hr2
        refine ⟨h0, by simp, ?_⟩
        intro y hy
        have hy' : (match item.issued with
          | [] => (none : Option (Int ⊕ String))
          | dp :: _ => match dp with
            | [] => none
            | y0 :: _ => some (Sum.inl y0)) = some y := hy
        cases his : item.issued with
        | nil => rw [his] at hy'; exact absurd hy' (by simp)
        | cons dp rest =>
          rw [his] at hy'
          cases hdp : dp with
          | nil => rw [hdp] at hy'; exact absurd hy' (by simp)
          | cons y0 ys =>
            rw [hdp] at hy'
            exact ⟨y0, (Option.some.inj hy').symm⟩

theorem ax_shape (env : Option AXResponse) (topic : String) (max_results : Nat) :
    ∀ r ∈ search_arxiv env topic max_results,
      r.title ≠ "" ∧ r.authors.length ≤ 4 ∧
        ∀ y, r.year = some y → ∃ sy : String, y = Sum.inr sy := by
  intro r hr
  match env with
  | none => simp [search_arxiv] at hr
  | some resp =>
    simp only [search_arxiv] at hr
    obtain ⟨entry, hp, hf⟩ := List.mem_filterMap.mp hr
    split at hf
    · exact absurd hf (by simp)
    · rename_i t htl
      split at hf
      · exact absurd hf (by simp)
      · rename_i h0
        have hr2 := Option.some.inj hf
        subst hr2
        refine ⟨h0, by simp, ?_⟩
        intro y hy
        have hy' : (if entry.published.getD "" = "" then (none : Option (Int ⊕ String))
            else some (Sum.inr (pyTake (entry.published.getD "") 4))) = some y := hy
        by_cases hpub : entry.published.getD "" = ""
        · rw [if_pos hpub] at hy'; exact absurd hy' (by simp)
        · rw [if_neg hpub] at hy'
          exact ⟨pyTake (entry.published.getD "") 4, (Option.some.inj hy').symm⟩

/-- C6 (amended): every adapter record has a non-empty title; Crossref and
arXiv records carry at most 4 author names; Semantic Scholar and Crossref
years, when present, are integers, while an arXiv year, when present, is a
string (the first four characters of the published timestamp).  (Semantic
Scholar does not truncate its author list — see the counterexample.) -/
theorem adapters_record_shape (ssEnv : Option SSResponse) (crEnv : Option CRResponse)
    (axEnv : Option AXResponse) (topic : String) (l1 l2 l3 : Nat) :
    (∀ r ∈ search_semantic_scholar ssEnv topic l1,
      r.title ≠ "" ∧ ∀ y, r.year = some y → ∃ k : Int, y = Sum.inl k) ∧
    (∀ r ∈ search_crossref crEnv topic l2,
      r.title ≠ "" ∧ r.authors.length ≤ 4 ∧
        ∀ y, r.year = some y → ∃ k : Int, y = Sum.inl k) ∧
    (∀ r ∈ search_arxiv axEnv topic l3,
      r.title ≠ "" ∧ r.authors.length ≤ 4 ∧
        ∀ y, r.year = some y → ∃ sy : String, y = Sum.inr sy) :=
  ⟨ss_shape ssEnv topic l1, cr_shape crEnv topic l2, ax_shape axEnv topic l3⟩

def ssPaperFive : SSPaper :=
  { title := some "Wide Collaboration", authors := [⟨some "A One"⟩, ⟨some "B Two"⟩,
      ⟨some "C Three"⟩, ⟨some "D Four"⟩, ⟨some "E Five"⟩],
    year := some 2020, venue := some "Nature", openAccessPdf := none, url := none }

def axEntryYear : AXEntry :=
  { title := some "Quantum Notes", names := ["X Young"], links := [],
    published := some "2023-01-05T00:00:00Z", id := none }

/-- The article `search_arxiv` builds from `axEntryYear`. -/
def axArticleYear : Article :=
  { title := "Quantum Notes", authors := ["X Young"], year := some (Sum.inr "2023"),
    journal := "arXiv", pdf := some "", url := some "", source := "arXiv" }

/-- Counterexample for C6 as stated: a Semantic Scholar paper with five
authors yields a record with five author names (no truncation to 4), and an
arXiv entry's year is a string, not an integer. -/
theorem adapters_record_shape_counterexample :
    ((search_semantic_scholar (some ⟨[ssPaperFive]⟩) "t" 8).map
      (fun r => r.authors.length)) = [5] ∧
    ((search_arxiv (some ⟨[axEntryYear]⟩) "t" 6).map Article.year) =
      [some (Sum.inr "2023")] := by
  decide

/-- Witness for C6 (amended) at a concrete arXiv record. -/
theorem adapters_record_shape_witness :
    axArticleYear.title ≠ "" ∧ axArticleYear.authors.length ≤ 4 :=
  ⟨((adapters_record_shape none none (some ⟨[axEntryYear]⟩) "t" 0 0 6).2.2
      axArticleYear (by decide)).1,
   ((adapters_record_shape none none (some ⟨[axEntryYear]⟩) "t" 0 0 6).2.2
      axArticleYear (by decide)).2.1⟩

/-! ## Per-adapter sub-limits -/

/-- Counterexample for C8 as stated: at `max_results = 2` the Semantic
Scholar and Crossref sub-limits are `2 // 2 = 1`, below the claimed floor
of 4. -/
theorem sublimits_counterexample :
    ssSublimit 2 = 1 ∧ crSublimit 2 = 1 ∧ ¬ 4 ≤ ssSublimit 2 := by
  decide

/-- C8 (amended): the sub-limits are `N // 2 or 5` for Semantic Scholar and
Crossref (5 exactly when `N // 2 = 0`, i.e. N ≤ 1) and `max(4, N // 3)` for
arXiv; only the arXiv sub-limit is floored at 4 — for 2 ≤ N ≤ 7 the first
two adapters are asked for fewer than 4 results. -/
theorem sublimits_amended (N : Nat) :
    4 ≤ axSublimit N ∧ axSublimit N = max 4 (N / 3) ∧
    crSublimit N = ssSublimit N ∧ 1 ≤ ssSublimit N ∧
    (N ≤ 1 → ssSublimit N = 5) ∧ (2 ≤ N → ssSublimit N = N / 2) ∧
    (2 ≤ N → N ≤ 7 → ssSublimit N < 4) := by
  refine ⟨Nat.le_max_left _ _, rfl, rfl, ?_, ?_, ?_, ?_⟩ <;>
    unfold ssSublimit <;> by_cases h : N / 2 = 0 <;> simp [h] <;> omega

/-- Witness for C8 (amended) at N = 6: the first two sub-limits are 3. -/
theorem sublimits_amended_witness : ssSublimit 6 = 6 / 2 ∧ ssSublimit 6 < 4 :=
  ⟨(sublimits_amended 6).2.2.2.2.2.1 (by decide),
   (sublimits_amended 6).2.2.2.2.2.2 (by decide) (by decide)⟩

/-! ## Video resolver claims -/

theorem take_length_le {α : Type} (l : List α) (n : Nat) : (l.take n).length ≤ n := by
  simp [List.length_take]

/-- Environment in which every tier fails: no API key is configured (as in
the source, where `YOUTUBE_API_KEY = None`) and the results-page fetch
raises. -/
def envAllFail : YtEnv := { apiKey := none, apiItems := none, scrape := none }

/-- C1 (amended): the video resolver only guarantees the cap — every return
path slices the collected list with `[:max_results]` — and has no floor:
there are no AI-suggestion or templated fallback tiers, so when the API and
scrape tiers yield nothing the function returns the empty list;
`min_videos = 5` is never enforced on the result. -/
theorem youtube_links_cap_no_floor (env : YtEnv) (topic : String) (n : Nat) :
    (search_youtube_links env topic n).length ≤ n ∧
    (∀ t : String, ∀ m : Nat, search_youtube_links envAllFail t m = []) := by
  constructor
  · unfold search_youtube_links
    dsimp only
    split
    · exact take_length_le _ _
    · split
      · exact take_length_le _ _
      · exact take_length_le _ _
  · intro t m
    show List.take m [] = []
    exact List.take_nil

/-- Counterexample for C1 as stated: with every real-source tier failing
(fewer than `min_videos = 5` results collected), the returned list has
length 0, not the configured minimum 5. -/
theorem youtube_links_floor_counterexample :
    search_youtube_links envAllFail "python" 20 = [] ∧
    (search_youtube_links envAllFail "python" 20).length ≠ 5 := by
  exact ⟨rfl, by decide⟩
